import Mathlib

/-!
Verification development for the six-minute-walk calculator.

The source is a browser script (src/script.js, plus two sibling variants under
src/unnamed).  We shallowly embed its core, following the first variant of
src/script.js, whose line numbers the claims cite:

* JS strings are modelled as lists of characters (`List Char`); `String` is
  used only for opaque UI message text.
* JS numbers are modelled as exact rationals (`ℚ`) for durations, positions
  and distances, and as `ℕ` for the integer second counts produced by the
  manual-table parser.  Binary floating point rounding is not modelled; every
  value the claims exercise is exactly representable.
* The DOM is modelled as the record `AppState`: the module-level mutable
  variables together with the button labels, disabled flags and the text of
  the error/result boxes.  Rendering of display strings into the page is
  treated as output and not modelled, except where a claim is about the
  formatted text itself.
* `performance.now()` readings appear as explicit nonnegative deltas
  (time elapsed since the last rebase of `stopwatchStartTime`).
-/

/-! ## Characters and JS string primitives -/

/-- Whitespace as used by the JS `trim` and the `\s` character class
(restricted to the whitespace characters the inputs can contain). -/
def isJsSpace (c : Char) : Bool := c.isWhitespace

/-- JS `String.prototype.trim`: strip leading and trailing whitespace. -/
def jsTrim (cs : List Char) : List Char :=
  ((cs.dropWhile isJsSpace).reverse.dropWhile isJsSpace).reverse

/-- Convenience: the character list of a Lean string literal. -/
def jsStr (s : String) : List Char := s.data

/-- Decimal digit character of a digit value, as produced by JS `String(n)`. -/
def digitChar : ℕ → Char
  | 0 => '0'
  | 1 => '1'
  | 2 => '2'
  | 3 => '3'
  | 4 => '4'
  | 5 => '5'
  | 6 => '6'
  | 7 => '7'
  | 8 => '8'
  | _ => '9'

/-- Fuel-driven decimal rendering of a natural number; with fuel above the
number this is JS `String(n)`. -/
def natReprAux : ℕ → ℕ → List Char
  | 0, _ => []
  | fuel + 1, n =>
      if n < 10 then [digitChar n]
      else natReprAux fuel (n / 10) ++ [digitChar (n % 10)]

/-- JS `String(n)` for a natural number. -/
def natRepr (n : ℕ) : List Char := natReprAux (n + 1) n

/-- The same rendering as a Lean `String`, for interpolated UI messages. -/
def natStr (n : ℕ) : String := String.mk (natRepr n)

/-- JS `parseInt(s, 10)` on a string of decimal digits (the only shapes the
embedded code feeds it).  The empty list gives 0, matching the one call site
that feeds it a possibly-empty capture with an explicit empty-string guard. -/
def natOfDigits (cs : List Char) : ℕ :=
  cs.foldl (fun n c => n * 10 + (c.toNat - 48)) 0

/-- JS `String(n).padStart(2, "0")`. -/
def pad2 (n : ℕ) : List Char :=
  if (natRepr n).length < 2 then '0' :: natRepr n else natRepr n

/-! ## Time parsing and formatting (src/script.js lines 57-67, 294-332, and
variant 2 lines 880-942) -/

/-- Function `parseFlexibleMmSsToSeconds` of src/script.js (lines 310-332),
the manual-lap-cell parser of the first variant.  Accepts a pure digit string
(whole seconds), or the regex shape `(\d*):\s*(\d\x7b1,2\x7d)` anchored at
both ends: minutes (possibly empty, meaning 0), a colon, optional spaces,
then one or two digits of seconds.  Seconds of 60 or more carry into minutes
by plain arithmetic (`"2:75"` gives 195).  Anything else parses to `none`. -/
def parseFlexibleMmSsToSeconds (raw : List Char) : Option ℕ :=
  let s := jsTrim raw
  if s = [] then none
  else if s.all Char.isDigit then some (natOfDigits s)
  else
    let mPart := s.takeWhile (fun c => c ≠ ':')
    match s.dropWhile (fun c => c ≠ ':') with
    | [] => none
    | _ :: rest =>
        if mPart.all Char.isDigit then
          let ssPart := rest.dropWhile isJsSpace
          if ssPart ≠ [] ∧ ssPart.length ≤ 2 ∧ ssPart.all Char.isDigit then
            some (natOfDigits mPart * 60 + natOfDigits ssPart)
          else none
        else none

/-- Function `parseFlexibleTimeToSeconds` of the second variant in
src/script.js (lines 912-942).  Tries, in order: `:` followed by one to three
digits; `digits:digits` with carry; one to six digits of plain seconds. -/
def parseFlexibleTimeToSeconds (raw : List Char) : Option ℕ :=
  let s := jsTrim raw
  match s with
  | [] => none
  | ':' :: ds =>
      if ds ≠ [] ∧ ds.length ≤ 3 ∧ ds.all Char.isDigit then some (natOfDigits ds)
      else none
  | _ =>
      let mPart := s.takeWhile (fun c => c ≠ ':')
      match s.dropWhile (fun c => c ≠ ':') with
      | _ :: rest =>
          if mPart ≠ [] ∧ mPart.all Char.isDigit ∧ rest ≠ [] ∧ rest.all Char.isDigit then
            some (natOfDigits mPart * 60 + natOfDigits rest)
          else none
      | [] =>
          if s.length ≤ 6 ∧ s.all Char.isDigit then some (natOfDigits s)
          else none

/-- Function `formatTimeSeconds` of src/script.js (lines 57-67): render a
nonnegative duration in seconds as `mm:ss.t` (tenths always printed). -/
def formatTimeSeconds (seconds : ℚ) : List Char :=
  let whole : ℕ := (⌊seconds⌋).toNat
  let tenths : ℕ := (⌊(seconds - (whole : ℚ)) * 10⌋).toNat
  pad2 (whole / 60) ++ ':' :: (pad2 (whole % 60) ++ '.' :: natRepr tenths)

/-- Function `formatMmSs` of src/script.js (lines 294-299): render a
nonnegative duration in seconds as `mm:ss` (whole seconds, no tenths). -/
def formatMmSs (totalSeconds : ℚ) : List Char :=
  let whole : ℕ := (⌊totalSeconds⌋).toNat
  pad2 (whole / 60) ++ ':' :: pad2 (whole % 60)

/-! ## Track geometry (src/script.js lines 507-543, src/unnamed/part_000
lines 425-435) -/

/-- One full out-and-back lap: 25 m out plus 25 m back. -/
def LAP_LENGTH_M : ℚ := 50

/-- A direction value that survived the upstream validation of `calculate`
(lowercased text equal to "out" or "back"). -/
inductive Direction
  | dirOut
  | dirBack
deriving DecidableEq, Repr

/-- Function `positionToOffsetWithinLap` of src/script.js (lines 535-543):
offset along the current lap from the starting line.  The source throws on
any other direction string; validation upstream guarantees the two cases
modelled here. -/
def positionToOffsetWithinLap (posM : ℚ) : Direction → ℚ
  | .dirOut => posM
  | .dirBack => LAP_LENGTH_M - posM

/-- Function `offsetMetersFromPosDir` of src/unnamed/part_000 (lines
425-435).  There positions are entered in track units of 2 m (0..25), scaled
by `Math.round(pos * 2)`; position 0 is forced to offset 0 for both
directions ("start line for BOTH directions"). -/
def offsetMetersFromPosDir (pos : ℚ) (dir : Direction) : ℚ :=
  let posM : ℤ := ⌊pos * 2 + 1 / 2⌋
  if posM = 0 then 0
  else if dir = .dirOut then (posM : ℚ)
  else 50 - (posM : ℚ)

/-- Function `getLapsCompletedByTime` of src/script.js (lines 515-525): scan
the array in order, counting entries at or before `tSeconds`, stopping at the
first larger entry. -/
def getLapsCompletedByTime : List ℚ → ℚ → ℕ
  | [], _ => 0
  | x :: xs, t => if x ≤ t then 1 + getLapsCompletedByTime xs t else 0

/-! ## Application state -/

/-- Text shown on the start/stop button: "Start", "Stop" or "Finished". -/
inductive ToggleLabel
  | startLbl
  | stopLbl
  | finishedLbl
deriving DecidableEq, Repr

/-- Result of `parseFloat` on the trimmed text of one position input:
blank input, not a number, or a numeric value. -/
inductive PosField
  | blank
  | nanVal
  | val (q : ℚ)
deriving DecidableEq

/-- Lowercased direction token of one sticky-note button: "out", "back", or
anything else. -/
inductive DirField
  | fOut
  | fBack
  | fOther
deriving DecidableEq

/-- One minute row of the sticky-note inputs as read from the DOM. -/
structure MinuteInput where
  pos : PosField
  dir : DirField
deriving DecidableEq

/-- One validated minute row (the `minuteInfo` entries of `calculate`). -/
structure MinuteSpec where
  minute : ℕ
  posM : ℚ
  dir : Direction
deriving DecidableEq, Repr

/-- One output row of `calculate` (the `rows` entries). -/
structure CalcRow where
  minute : ℕ
  timeS : ℚ
  distanceThisMinuteM : ℚ
  lapsThisMinute : ℚ
  totalDistanceM : ℚ
deriving DecidableEq, Repr

/-- Contents of the results box: either a plain message (the initial hint or
an error line) or the computed table, kept structurally rather than as the
rendered monospace text. -/
inductive ResultsBox
  | text (s : String)
  | table (rows : List CalcRow) (totalDistanceAll : ℚ) (totalLapsAll : ℚ)
deriving DecidableEq

/-- The module-level mutable state of src/script.js (first variant) together
with the observable widget state the code drives: button labels and disabled
flags, the manual-table cell texts, the sticky-note inputs, and the error and
result boxes. -/
structure AppState where
  elapsedMs : ℚ
  running : Bool
  toggleLabel : ToggleLabel
  toggleDisabled : Bool
  lapDisabled : Bool
  resetDisabled : Bool
  lapTimes : List ℚ
  isManualMode : Bool
  manualCells : List (List Char)
  minuteInputs : List MinuteInput
  lapError : String
  minuteError : String
  results : ResultsBox
deriving DecidableEq

/-- Page load state: timer at zero, six blank sticky notes defaulting to
direction "out", hint text in the results box. -/
def initState : AppState :=
  { elapsedMs := 0
    running := false
    toggleLabel := .startLbl
    toggleDisabled := false
    lapDisabled := true
    resetDisabled := true
    lapTimes := []
    isManualMode := false
    manualCells := []
    minuteInputs := List.replicate 6 ⟨.blank, .fOut⟩
    lapError := ""
    minuteError := ""
    results := .text "Per-minute results will appear here." }

/-! ## Stopwatch operations (src/script.js lines 82-268)

Clock readings enter as the nonnegative delta `d` between `performance.now()`
and the stored `stopwatchStartTime`; the source re-bases the start time after
consuming a delta, so successive deltas are independent nonnegative values. -/

/-- The 6-minute ceiling in milliseconds. -/
def maxMs : ℚ := 360000

/-- Function `tick` of src/script.js (lines 82-116): advance the elapsed time
by the delta since the last rebase; at or past the ceiling, clamp to exactly
`maxMs`, stop, and lock the UI in the Finished state. -/
def tick (d : ℚ) (s : AppState) : AppState :=
  if s.running = false then s
  else
    let newElapsed := s.elapsedMs + d
    if maxMs ≤ newElapsed then
      { s with elapsedMs := maxMs, running := false, toggleLabel := .finishedLbl,
               toggleDisabled := true, lapDisabled := true }
    else { s with elapsedMs := newElapsed }

/-- Function `startTimer` of src/script.js (lines 122-135). -/
def startTimer (s : AppState) : AppState :=
  if s.running = true then s
  else { s with running := true, toggleLabel := .stopLbl,
                lapDisabled := false, resetDisabled := false }

/-- Function `stopTimer` of src/script.js (lines 141-169): fold the pending
delta into `elapsedMs`, clamping at the ceiling, and return to the ordinary
stopped state. -/
def stopTimer (d : ℚ) (s : AppState) : AppState :=
  if s.running = false then s
  else
    let e := s.elapsedMs + d
    { s with running := false,
             elapsedMs := if maxMs < e then maxMs else e,
             toggleLabel := .startLbl,
             lapDisabled := true }

/-- Function `resetTimer` of src/script.js (lines 175-223): back to the idle
state, clearing laps, manual state and the lap error. -/
def resetTimer (s : AppState) : AppState :=
  { s with elapsedMs := 0, running := false, toggleLabel := .startLbl,
           toggleDisabled := false, lapDisabled := true, resetDisabled := true,
           lapTimes := [], isManualMode := false, manualCells := [],
           lapError := "" }

/-- Function `toggleTimer` of src/script.js (lines 229-238). -/
def toggleTimer (d : ℚ) (s : AppState) : AppState :=
  let s1 := { s with lapError := "" }
  if s1.running = false then startTimer s1 else stopTimer d s1

/-- Function `recordLap` of src/script.js (lines 245-268): no-op unless
running; sample the current elapsed seconds; reject a sample at or below the
last recorded lap with an advisory message; otherwise append. -/
def recordLap (d : ℚ) (s : AppState) : AppState :=
  if s.running = false then s
  else
    let currentSec := (s.elapsedMs + d) / 1000
    match s.lapTimes.getLast? with
    | some lastLap =>
        if currentSec ≤ lastLap then
          { s with lapError :=
              "Lap ignored: lap time must be greater than previous lap time." }
        else { s with lapTimes := s.lapTimes ++ [currentSec], lapError := "" }
    | none => { s with lapTimes := s.lapTimes ++ [currentSec], lapError := "" }

/-! ## Manual lap table (src/script.js lines 310-448) -/

/-- The three cell-indexed rejection reasons of
`syncLapTimesFromManualTable`. -/
inductive ManualErrKind
  | gap
  | badCell (raw : List Char)
  | notIncreasing
deriving DecidableEq

/-- A rejection naming the offending cell (1-based lap number). -/
structure ManualErr where
  idx : ℕ
  kind : ManualErrKind
deriving DecidableEq

/-- The exact error strings written to the lap-error box. -/
def renderManualErr : ManualErr → String
  | ⟨i, .gap⟩ =>
      "Manual entry error: Lap " ++ natStr i ++ " has a value but an earlier lap is blank."
  | ⟨i, .badCell raw⟩ =>
      "Manual entry error on lap " ++ natStr i ++ ": \"" ++ String.mk raw ++
        "\". Use mm:ss (e.g., :38, 1:02)."
  | ⟨i, .notIncreasing⟩ =>
      "Manual entry error on lap " ++ natStr i ++ ": times must be strictly increasing."

/-- First pass of `syncLapTimesFromManualTable` (lines 394-427): walk the
cells, skipping blanks (raising a gap error only when trailing blanks are
disallowed), parsing each non-blank cell and enforcing strict increase
against the previously parsed value.  `i` is the 0-based index of the first
cell of the remaining list. -/
def syncPass1 (allowTrailingEmpty : Bool) :
    List (List Char) → Bool → Option ℕ → ℕ → Except ManualErr (List ℕ)
  | [], _, _, _ => .ok []
  | cell :: rest, seenEmpty, prev, i =>
      let raw := jsTrim cell
      if raw = [] then syncPass1 allowTrailingEmpty rest true prev (i + 1)
      else if seenEmpty = true ∧ allowTrailingEmpty = false then .error ⟨i + 1, .gap⟩
      else
        match parseFlexibleMmSsToSeconds raw with
        | none => .error ⟨i + 1, .badCell raw⟩
        | some v =>
            match prev with
            | some p =>
                if v ≤ p then .error ⟨i + 1, .notIncreasing⟩
                else Except.map (fun l => v :: l)
                  (syncPass1 allowTrailingEmpty rest seenEmpty (some v) (i + 1))
            | none =>
                Except.map (fun l => v :: l)
                  (syncPass1 allowTrailingEmpty rest seenEmpty (some v) (i + 1))

/-- Second pass of `syncLapTimesFromManualTable` (lines 434-443): reject any
non-blank cell that follows a blank cell. -/
def syncPass2 : List (List Char) → Bool → ℕ → Option ManualErr
  | [], _, _ => none
  | cell :: rest, foundBlank, i =>
      let raw := jsTrim cell
      if raw = [] then syncPass2 rest true (i + 1)
      else if foundBlank = true then some ⟨i + 1, .gap⟩
      else syncPass2 rest foundBlank (i + 1)

/-- Both passes over the cell texts, with the options every call site uses
(normalize: true, allowTrailingEmpty: true).  Normalization only rewrites the
cell display text and is not part of the data model. -/
def syncManualCells (cells : List (List Char)) : Except ManualErr (List ℕ) :=
  match syncPass1 true cells false none 0 with
  | .error e => .error e
  | .ok parsed =>
      match syncPass2 cells false 0 with
      | some e => .error e
      | none => .ok parsed

/-- Function `syncLapTimesFromManualTable` of src/script.js (lines 388-448)
at the state level: on success replace `lapTimes` wholesale and clear the lap
error, on failure leave `lapTimes` untouched and report the cell-indexed
message.  Returns the JS boolean result alongside the new state. -/
def syncLapTimesFromManualTable (s : AppState) : AppState × Bool :=
  if s.manualCells = [] then ({ s with lapTimes := [] }, true)
  else
    match syncManualCells s.manualCells with
    | .error e => ({ s with lapError := renderManualErr e }, false)
    | .ok parsed =>
        ({ s with lapError := "", lapTimes := parsed.map (fun n => (n : ℚ)) }, true)

/-! ## The calculator (src/script.js lines 561-690) -/

/-- Validation of one sticky-note row (lines 585-619): blank position, then
non-numeric or out-of-range position, then unknown direction, each with its
minute-error message and results-box message. -/
def validateMinute (m : ℕ) (inp : MinuteInput) : Except (String × String) MinuteSpec :=
  match inp.pos with
  | .blank =>
      .error ("Please enter a position (0 to 25 m) for minute " ++ natStr m ++ ".",
        "Error: missing position for minute " ++ natStr m ++ ".")
  | .nanVal =>
      .error ("Position for minute " ++ natStr m ++ " must be a number between 0 and 25.",
        "Error: invalid position for minute " ++ natStr m ++ ".")
  | .val p =>
      if p < 0 ∨ 25 < p then
        .error ("Position for minute " ++ natStr m ++ " must be a number between 0 and 25.",
          "Error: invalid position for minute " ++ natStr m ++ ".")
      else
        match inp.dir with
        | .fOut => .ok ⟨m, p, .dirOut⟩
        | .fBack => .ok ⟨m, p, .dirBack⟩
        | .fOther =>
            .error ("Direction for minute " ++ natStr m ++ " must be \"out\" or \"back\".",
              "Error: invalid direction for minute " ++ natStr m ++ ".")

/-- The validation loop over minutes `m, m+1, ...` with first-failure-wins
semantics (the source loop runs m = 1..6 and returns on the first error). -/
def validateMinutes : List MinuteInput → ℕ → Except (String × String) (List MinuteSpec)
  | [], _ => .ok []
  | inp :: rest, m =>
      match validateMinute m inp with
      | .error e => .error e
      | .ok spec =>
          match validateMinutes rest (m + 1) with
          | .error e => .error e
          | .ok specs => .ok (spec :: specs)

/-- The per-minute loop of `calculate` (lines 621-653): full laps completed
by the minute mark times the lap length, plus the within-lap offset, clamped
below by the previous cumulative total. -/
def calcRows (sorted : List ℚ) : List MinuteSpec → ℚ → List CalcRow
  | [], _ => []
  | info :: rest, prevTotalDistance =>
      let tSec : ℚ := (info.minute : ℚ) * 60
      let lapsCompleted := getLapsCompletedByTime sorted tSec
      let distFullLaps : ℚ := (lapsCompleted : ℚ) * LAP_LENGTH_M
      let offset := positionToOffsetWithinLap info.posM info.dir
      let raw := distFullLaps + offset
      let totalDistance := if raw < prevTotalDistance then prevTotalDistance else raw
      { minute := info.minute, timeS := tSec,
        distanceThisMinuteM := totalDistance - prevTotalDistance,
        lapsThisMinute := (totalDistance - prevTotalDistance) / LAP_LENGTH_M,
        totalDistanceM := totalDistance } :: calcRows sorted rest totalDistance

/-- Steps 1-4 of `calculate` once the lap source is settled: sort a copy of
`lapTimes`, validate the six sticky notes (early return on failure), then
build the rows and totals. -/
def calcCore (s : AppState) : AppState :=
  let sortedLapTimes := List.insertionSort (· ≤ ·) s.lapTimes
  match validateMinutes s.minuteInputs 1 with
  | .error err => { s with minuteError := err.1, results := .text err.2 }
  | .ok minuteInfo =>
      let rows := calcRows sortedLapTimes minuteInfo 0
      let totalDistanceAll : ℚ :=
        match rows.getLast? with
        | some row => row.totalDistanceM
        | none => 0
      { s with results := .table rows totalDistanceAll (totalDistanceAll / LAP_LENGTH_M) }

/-- Function `calculate` of src/script.js (lines 561-690): clear both error
boxes; in manual mode first re-derive `lapTimes` from the table, aborting
with an error message on failure; then run the core calculation. -/
def calculate (s0 : AppState) : AppState :=
  let s := { s0 with lapError := "", minuteError := "" }
  if s.isManualMode = true then
    match syncLapTimesFromManualTable s with
    | (s2, true) => calcCore s2
    | (s2, false) => { s2 with results := .text "Error: fix manual lap times before calculating." }
  else calcCore s

/-! ## Mode switching and the event machine -/

/-- Function `refreshStopwatchButtonState` of src/script.js (lines 450-465). -/
def refreshStopwatchButtonState (s : AppState) : AppState :=
  if s.isManualMode = true then
    { s with toggleDisabled := true, lapDisabled := true, resetDisabled := false }
  else
    { s with toggleDisabled := decide (s.toggleLabel = .finishedLbl),
             lapDisabled := decide (s.running = false ∨ s.toggleLabel = .finishedLbl),
             resetDisabled :=
               if s.toggleLabel = .finishedLbl then false
               else decide (s.elapsedMs ≤ 0 ∧ s.lapTimes = []) }

/-- Function `clearManualLapTableToSingleRow` of src/script.js (lines
334-338): one empty input row. -/
def clearManualLapTableToSingleRow (s : AppState) : AppState :=
  { s with manualCells := [[]] }

/-- Function `setManualMode` of src/script.js (lines 467-501): set the flag,
stop a running timer when entering manual mode, seed a single empty row the
first time, re-derive `lapTimes` from the table, refresh the buttons. -/
def setManualMode (flag : Bool) (d : ℚ) (s : AppState) : AppState :=
  let s1 := { s with isManualMode := flag }
  let s2 := if flag = true ∧ s1.running = true then stopTimer d s1 else s1
  let s3 := if flag = true ∧ s2.manualCells = [] then clearManualLapTableToSingleRow s2 else s2
  let s4 := if flag = true then (syncLapTimesFromManualTable s3).1 else s3
  refreshStopwatchButtonState s4

/-- The user/browser events the page reacts to.  Each clock-reading event
carries the nonnegative delta since the last rebase of the start reference. -/
inductive Ev
  | toggle (d : ℚ)
  | lap (d : ℚ)
  | reset
  | tickEv (d : ℚ)
  | manualToggle (flag : Bool) (d : ℚ)
  | calcClick
  | editCells (cells : List (List Char))
  | manualEnter
  | manualClear
  | editMinutes (inputs : List MinuteInput)

/-- One event dispatch.  A disabled button does not fire its click handler,
so the button-driven events are guarded by the disabled flags; the manual
table exists only in manual mode. -/
def stepFn : Ev → AppState → AppState
  | .toggle d, s => if s.toggleDisabled = true then s else toggleTimer d s
  | .lap d, s => if s.lapDisabled = true then s else recordLap d s
  | .reset, s => if s.resetDisabled = true then s else resetTimer s
  | .tickEv d, s => tick d s
  | .manualToggle flag d, s => setManualMode flag d s
  | .calcClick, s => calculate s
  | .editCells cells, s => if s.isManualMode = true then { s with manualCells := cells } else s
  | .manualEnter, s => if s.isManualMode = true then (syncLapTimesFromManualTable s).1 else s
  | .manualClear, s =>
      if s.isManualMode = true then
        { s with lapTimes := [], lapError := "", manualCells := [[]] }
      else s
  | .editMinutes inputs, s => { s with minuteInputs := inputs }

/-- Reachable application states: everything obtainable from the page-load
state by dispatching events whose clock deltas are nonnegative
(`performance.now()` is monotone). -/
inductive Reach : AppState → Prop
  | init : Reach initState
  | toggle (s : AppState) (d : ℚ) : Reach s → 0 ≤ d → Reach (stepFn (.toggle d) s)
  | lap (s : AppState) (d : ℚ) : Reach s → 0 ≤ d → Reach (stepFn (.lap d) s)
  | reset (s : AppState) : Reach s → Reach (stepFn .reset s)
  | tickStep (s : AppState) (d : ℚ) : Reach s → 0 ≤ d → Reach (stepFn (.tickEv d) s)
  | manualToggle (s : AppState) (flag : Bool) (d : ℚ) :
      Reach s → 0 ≤ d → Reach (stepFn (.manualToggle flag d) s)
  | calcClick (s : AppState) : Reach s → Reach (stepFn .calcClick s)
  | editCells (s : AppState) (cells : List (List Char)) :
      Reach s → Reach (stepFn (.editCells cells) s)
  | manualEnter (s : AppState) : Reach s → Reach (stepFn .manualEnter s)
  | manualClear (s : AppState) : Reach s → Reach (stepFn .manualClear s)
  | editMinutes (s : AppState) (inputs : List MinuteInput) :
      Reach s → Reach (stepFn (.editMinutes inputs) s)

/-! ## Derived predicates and spec-side definitions used by the claims -/

deriving instance DecidableEq for Except

/-- The characters a decimal rendering can contain: a digit, not whitespace,
not a colon, not a dot. -/
abbrev PlainDigit (c : Char) : Prop :=
  c.isDigit = true ∧ isJsSpace c = false ∧ c ≠ ':' ∧ c ≠ '.'

/-- The raw (unclamped) cumulative distance `calculate` computes for one
minute row: completed laps times the lap length, plus the within-lap
offset. -/
def rawTotalAtMinute (sorted : List ℚ) (info : MinuteSpec) : ℚ :=
  (getLapsCompletedByTime sorted ((info.minute : ℚ) * 60) : ℚ) * LAP_LENGTH_M +
    positionToOffsetWithinLap info.posM info.dir

/-- Modelled from the spec: the cumulative-distance recurrence
total(m) = max(lapsCompleted(m) * LAP_LENGTH + offset(m), total(m-1)),
threaded from the previous total.  Compared with the rows the code builds. -/
def specTotals (sorted : List ℚ) : List MinuteSpec → ℚ → List ℚ
  | [], _ => []
  | info :: rest, prev =>
      max (rawTotalAtMinute sorted info) prev ::
        specTotals sorted rest (max (rawTotalAtMinute sorted info) prev)

/-- A sticky-note row that passes the validation of `calculate`: a numeric
position within 0..25 and a direction reading "out" or "back". -/
def ValidInput (inp : MinuteInput) : Prop :=
  (∃ q : ℚ, inp.pos = .val q ∧ 0 ≤ q ∧ q ≤ 25) ∧ inp.dir ≠ .fOther

/-- The timer invariant: the stored elapsed time never exceeds the ceiling,
and the Finished label comes with exactly the locked configuration the
finish branch of `tick` writes. -/
def TimerInv (s : AppState) : Prop :=
  s.elapsedMs ≤ maxMs ∧
    (s.toggleLabel = .finishedLbl →
      s.elapsedMs = maxMs ∧ s.running = false ∧
        s.toggleDisabled = true ∧ s.lapDisabled = true)

/-- Strict increase of a value list against an optional previous value, the
shape the first manual-table pass enforces. -/
def ChainGt : Option ℕ → List ℕ → Prop
  | _, [] => True
  | none, v :: vs => ChainGt (some v) vs
  | some p, v :: vs => p < v ∧ ChainGt (some v) vs

/-- The trimmed text of every manual cell. -/
def trimmedCells (cells : List (List Char)) : List (List Char) :=
  cells.map jsTrim

/-- The non-blank trimmed cells, in order. -/
def nonBlankCells (cells : List (List Char)) : List (List Char) :=
  (trimmedCells cells).filter (fun c => !c.isEmpty)

/-- The parsed values of the non-blank cells (those that parse). -/
def parsedCells (cells : List (List Char)) : List ℕ :=
  (nonBlankCells cells).filterMap parseFlexibleMmSsToSeconds

/-- Blanks occur only as a trailing run: after dropping the leading non-blank
cells, everything left is blank. -/
def NoGapB (cells : List (List Char)) : Bool :=
  ((trimmedCells cells).dropWhile (fun c => !c.isEmpty)).all (fun c => c.isEmpty)

/-- A manual table the submission accepts: every non-blank cell parses,
blanks form a trailing run, and the parsed values strictly increase. -/
def ValidCells (cells : List (List Char)) : Prop :=
  NoGapB cells = true ∧
    (∀ c ∈ nonBlankCells cells, parseFlexibleMmSsToSeconds c ≠ none) ∧
    List.Chain' (· < ·) (parsedCells cells)

/-- Scenario A of the spec: ledger 65, 130, 205 seconds, all six checkpoints
at position 0 heading out. -/
def scenarioAState : AppState :=
  { initState with
      lapTimes := [65, 130, 205],
      minuteInputs := List.replicate 6 ⟨PosField.val 0, DirField.fOut⟩ }

/-- A concrete three-event run: Start, a tick at 359.0 s, then Stop 2.0 s
later, which clamps the elapsed time at the ceiling through `stopTimer`. -/
def c5TraceState : AppState :=
  stepFn (.toggle 2000) (stepFn (.tickEv 359000) (stepFn (.toggle 0) initState))

/-- Scenario E state: timer running at 39.9 s already sampled, ledger
holding one lap at 40 s. -/
def scenarioEState : AppState :=
  { initState with running := true, lapTimes := [40], elapsedMs := 39900 }

/-! ## Theorems -/

theorem digitChar_plain (d : ℕ) : PlainDigit (digitChar d) := by
  unfold digitChar
  split <;> decide

theorem digitChar_toNat (d : ℕ) (h : d < 10) : (digitChar d).toNat - 48 = d := by
  interval_cases d <;> decide

theorem natOfDigits_nil : natOfDigits [] = 0 := rfl

theorem natOfDigits_cons (c : Char) (cs : List Char) :
    natOfDigits (c :: cs) = cs.foldl (fun n k => n * 10 + (k.toNat - 48)) (c.toNat - 48) := by
  simp [natOfDigits]

theorem natOfDigits_append_singleton (cs : List Char) (c : Char) :
    natOfDigits (cs ++ [c]) = 10 * natOfDigits cs + (c.toNat - 48) := by
  simp [natOfDigits, List.foldl_append, Nat.mul_comm]

theorem natOfDigits_zero_cons (cs : List Char) :
    natOfDigits ('0' :: cs) = natOfDigits cs := by
  simp [natOfDigits]

theorem natReprAux_small (fuel n : ℕ) (h10 : n < 10) (hf : 0 < fuel) :
    natReprAux fuel n = [digitChar n] := by
  cases fuel with
  | zero => omega
  | succ f => simp [natReprAux, h10]

theorem natReprAux_fuel_irrel (f1 : ℕ) :
    ∀ (f2 n : ℕ), n < f1 → n < f2 → natReprAux f1 n = natReprAux f2 n := by
  induction f1 with
  | zero => intro f2 n h1 _; omega
  | succ f ih =>
      intro f2 n h1 h2
      cases f2 with
      | zero => omega
      | succ g =>
          by_cases h10 : n < 10
          · simp [natReprAux, h10]
          · have hdivn : n / 10 < n := Nat.div_lt_self (by omega) (by omega)
            simp only [natReprAux, if_neg h10]
            rw [ih (g) (n / 10) (by omega) (by omega)]

theorem natRepr_eq_aux (fuel n : ℕ) (h : n < fuel) : natRepr n = natReprAux fuel n := by
  exact natReprAux_fuel_irrel (n + 1) fuel n (by omega) h

/-- Unfolding rule for `natRepr` at 10 and above. -/
theorem natRepr_ten_le (n : ℕ) (h : 10 ≤ n) :
    natRepr n = natRepr (n / 10) ++ [digitChar (n % 10)] := by
  have hdivn : n / 10 < n := Nat.div_lt_self (by omega) (by omega)
  show natReprAux (n + 1) n = _
  rw [show natReprAux (n + 1) n
        = if n < 10 then [digitChar n] else natReprAux n (n / 10) ++ [digitChar (n % 10)] from rfl,
    if_neg (by omega), ← natRepr_eq_aux n (n / 10) hdivn]

theorem natRepr_small (n : ℕ) (h : n < 10) : natRepr n = [digitChar n] := by
  simp [natRepr, natReprAux, h]

theorem natRepr_plain (n : ℕ) : ∀ c ∈ natRepr n, PlainDigit c := by
  induction n using Nat.strong_induction_on with
  | _ n ih =>
      by_cases h10 : n < 10
      · rw [natRepr_small n h10]
        intro c hc
        simp at hc
        exact hc ▸ digitChar_plain n
      · rw [natRepr_ten_le n (by omega)]
        intro c hc
        rcases List.mem_append.mp hc with hc | hc
        · exact ih (n / 10) (Nat.div_lt_self (by omega) (by omega)) c hc
        · simp at hc
          exact hc ▸ digitChar_plain (n % 10)

theorem natRepr_ne_nil (n : ℕ) : natRepr n ≠ [] := by
  by_cases h10 : n < 10
  · rw [natRepr_small n h10]; simp
  · rw [natRepr_ten_le n (by omega)]; simp

theorem natOfDigits_natRepr (n : ℕ) : natOfDigits (natRepr n) = n := by
  induction n using Nat.strong_induction_on with
  | _ n ih =>
      by_cases h10 : n < 10
      · rw [natRepr_small n h10]
        show natOfDigits ([] ++ [digitChar n]) = n
        rw [natOfDigits_append_singleton, natOfDigits_nil, digitChar_toNat n h10]
        omega
      · rw [natRepr_ten_le n (by omega), natOfDigits_append_singleton,
            ih (n / 10) (Nat.div_lt_self (by omega) (by omega)),
            digitChar_toNat (n % 10) (by omega)]
        omega

theorem natRepr_length_one (n : ℕ) (h : n < 10) : (natRepr n).length = 1 := by
  rw [natRepr_small n h]; rfl

theorem natRepr_length_le_two (n : ℕ) (h : n < 100) : (natRepr n).length ≤ 2 := by
  by_cases h10 : n < 10
  · rw [natRepr_length_one n h10]; omega
  · rw [natRepr_ten_le n (by omega)]
    rw [List.length_append, natRepr_length_one (n / 10) (by omega)]
    rfl

theorem natRepr_length_le (k : ℕ) :
    ∀ n : ℕ, n < 10 ^ k → 0 < k → (natRepr n).length ≤ k := by
  induction k with
  | zero => intro n _ h; omega
  | succ j ih =>
      intro n hn _
      by_cases h10 : n < 10
      · rw [natRepr_length_one n h10]; omega
      · rw [natRepr_ten_le n (by omega), List.length_append]
        have hj : 0 < j := by
          rcases Nat.eq_zero_or_pos j with h0 | h0
          · subst h0; simp at hn; omega
          · exact h0
        have hb : n / 10 < 10 ^ j := by
          rw [Nat.div_lt_iff_lt_mul (by norm_num : (0:ℕ) < 10)]
          calc n < 10 ^ (j + 1) := hn
            _ = 10 ^ j * 10 := by ring
        have := ih (n / 10) hb hj
        simp only [List.length_cons, List.length_nil]
        omega

theorem pad2_plain (n : ℕ) : ∀ c ∈ pad2 n, PlainDigit c := by
  intro c hc
  unfold pad2 at hc
  by_cases h : (natRepr n).length < 2
  · rw [if_pos h] at hc
    rcases List.mem_cons.mp hc with hc | hc
    · exact hc ▸ digitChar_plain 0
    · exact natRepr_plain n c hc
  · rw [if_neg h] at hc
    exact natRepr_plain n c hc

theorem pad2_length (n : ℕ) (h : n < 100) : (pad2 n).length = 2 := by
  unfold pad2
  by_cases h1 : (natRepr n).length < 2
  · rw [if_pos h1]
    have h2 : (natRepr n).length ≠ 0 := by
      intro hz
      exact natRepr_ne_nil n (List.length_eq_zero.mp hz)
    simp only [List.length_cons]
    omega
  · rw [if_neg h1]
    have := natRepr_length_le_two n h
    omega

theorem pad2_ne_nil (n : ℕ) : pad2 n ≠ [] := by
  unfold pad2
  by_cases h : (natRepr n).length < 2
  · rw [if_pos h]; simp
  · rw [if_neg h]; exact natRepr_ne_nil n

theorem natOfDigits_pad2 (n : ℕ) : natOfDigits (pad2 n) = n := by
  unfold pad2
  by_cases h : (natRepr n).length < 2
  · rw [if_pos h, natOfDigits_zero_cons, natOfDigits_natRepr]
  · rw [if_neg h, natOfDigits_natRepr]

/-! ## Splitting lemmas used to evaluate the regular expressions -/

theorem dropWhile_eq_self_of_all {α : Type} (p : α → Bool) (cs : List α)
    (h : ∀ c ∈ cs, p c = false) : cs.dropWhile p = cs := by
  cases cs with
  | nil => rfl
  | cons c rest =>
      rw [List.dropWhile_cons, if_neg]
      simp [h c (by simp)]

theorem jsTrim_eq_self (cs : List Char) (h : ∀ c ∈ cs, isJsSpace c = false) :
    jsTrim cs = cs := by
  unfold jsTrim
  rw [dropWhile_eq_self_of_all isJsSpace cs h,
    dropWhile_eq_self_of_all isJsSpace cs.reverse (by
      intro c hc
      exact h c (List.mem_reverse.mp hc)),
    List.reverse_reverse]

theorem takeWhile_append_stop {α : Type} (p : α → Bool) (xs : List α) (y : α) (zs : List α)
    (hxs : ∀ x ∈ xs, p x = true) (hy : p y = false) :
    (xs ++ y :: zs).takeWhile p = xs := by
  induction xs with
  | nil => simp [List.takeWhile_cons, hy]
  | cons x rest ih =>
      rw [List.cons_append, List.takeWhile_cons, if_pos (hxs x (by simp)),
        ih (fun z hz => hxs z (by simp [hz]))]

theorem dropWhile_append_stop {α : Type} (p : α → Bool) (xs : List α) (y : α) (zs : List α)
    (hxs : ∀ x ∈ xs, p x = true) (hy : p y = false) :
    (xs ++ y :: zs).dropWhile p = y :: zs := by
  induction xs with
  | nil => simp [List.dropWhile_cons, hy]
  | cons x rest ih =>
      rw [List.cons_append, List.dropWhile_cons, if_pos (hxs x (by simp))]
      exact ih (fun z hz => hxs z (by simp [hz]))

/-- A plain-digit list followed by a colon and a tail splits exactly at the
colon under the scanner used by the parsers. -/
theorem split_at_colon (ms tail : List Char) (hm : ∀ c ∈ ms, PlainDigit c) :
    (ms ++ ':' :: tail).takeWhile (fun c => c ≠ ':') = ms ∧
      (ms ++ ':' :: tail).dropWhile (fun c => c ≠ ':') = ':' :: tail := by
  constructor
  · exact takeWhile_append_stop _ ms ':' tail
      (fun x hx => by simpa using (hm x hx).2.2.1) (by simp)
  · exact dropWhile_append_stop _ ms ':' tail
      (fun x hx => by simpa using (hm x hx).2.2.1) (by simp)

theorem all_digits_of_plain (cs : List Char) (h : ∀ c ∈ cs, PlainDigit c) :
    cs.all Char.isDigit = true := by
  rw [List.all_eq_true]
  intro c hc
  exact (h c hc).1

theorem not_all_digits_of_colon (cs : List Char) (h : ':' ∈ cs) :
    cs.all Char.isDigit = false := by
  rw [Bool.eq_false_iff]
  intro hall
  rw [List.all_eq_true] at hall
  exact absurd (hall ':' h) (by decide)

/-- Evaluate `parseFlexibleMmSsToSeconds` on a string of the shape
`minutes ":" seconds` built from plain digit characters, with a one- or
two-digit seconds field. -/
theorem parseMmSs_colon_eval (ms ss : List Char) (hm : ∀ c ∈ ms, PlainDigit c)
    (hs : ∀ c ∈ ss, PlainDigit c) (hne : ss ≠ []) (hlen : ss.length ≤ 2) :
    parseFlexibleMmSsToSeconds (ms ++ ':' :: ss) = some (natOfDigits ms * 60 + natOfDigits ss) := by
  have hplainAll : ∀ c ∈ ms ++ ':' :: ss, isJsSpace c = false := by
    intro c hc
    rcases List.mem_append.mp hc with hc | hc
    · exact (hm c hc).2.1
    · rcases List.mem_cons.mp hc with hc | hc
      · subst hc; decide
      · exact (hs c hc).2.1
  unfold parseFlexibleMmSsToSeconds
  rw [jsTrim_eq_self _ hplainAll]
  rw [if_neg (by simp), not_all_digits_of_colon _ (by simp)]
  simp only [Bool.false_eq_true, if_false]
  rw [(split_at_colon ms ss hm).1, (split_at_colon ms ss hm).2]
  simp only
  rw [if_pos (all_digits_of_plain ms hm)]
  rw [dropWhile_eq_self_of_all isJsSpace ss (fun c hc => (hs c hc).2.1)]
  rw [if_pos ⟨hne, hlen, all_digits_of_plain ss hs⟩]

/-- Evaluate `parseFlexibleMmSsToSeconds` on a pure digit string. -/
theorem parseMmSs_digits_eval (cs : List Char) (hne : cs ≠ [])
    (h : ∀ c ∈ cs, PlainDigit c) :
    parseFlexibleMmSsToSeconds cs = some (natOfDigits cs) := by
  unfold parseFlexibleMmSsToSeconds
  rw [jsTrim_eq_self _ (fun c hc => (h c hc).2.1)]
  rw [if_neg hne, if_pos (all_digits_of_plain cs h)]

/-- When the seconds field of a colon form is followed by a dot and more
characters, `parseFlexibleMmSsToSeconds` rejects the cell: the tail after the
colon is at least four characters long, and the regex allows at most two. -/
theorem parseMmSs_colon_long_eval (ms tail : List Char) (hm : ∀ c ∈ ms, PlainDigit c)
    (htail : ∀ c ∈ tail, isJsSpace c = false) (hlen : 2 < tail.length) :
    parseFlexibleMmSsToSeconds (ms ++ ':' :: tail) = none := by
  have hplainAll : ∀ c ∈ ms ++ ':' :: tail, isJsSpace c = false := by
    intro c hc
    rcases List.mem_append.mp hc with hc | hc
    · exact (hm c hc).2.1
    · rcases List.mem_cons.mp hc with hc | hc
      · subst hc; decide
      · exact htail c hc
  unfold parseFlexibleMmSsToSeconds
  rw [jsTrim_eq_self _ hplainAll]
  rw [if_neg (by simp), not_all_digits_of_colon _ (by simp)]
  simp only [Bool.false_eq_true, if_false]
  rw [(split_at_colon ms tail hm).1, (split_at_colon ms tail hm).2]
  simp only
  rw [if_pos (all_digits_of_plain ms hm)]
  rw [dropWhile_eq_self_of_all isJsSpace tail htail]
  rw [if_neg (by
    intro hcontra
    exact absurd hcontra.2.1 (by omega))]


/-! ## Calculator lemmas -/

theorem ite_lt_eq_max (a b : ℚ) : (if a < b then b else a) = max a b := by
  rcases lt_or_le a b with h | h
  · rw [if_pos h, max_eq_right h.le]
  · rw [if_neg (not_lt.mpr h), max_eq_left h]

theorem calcRows_map_total (sorted : List ℚ) :
    ∀ (infos : List MinuteSpec) (prev : ℚ),
      (calcRows sorted infos prev).map CalcRow.totalDistanceM = specTotals sorted infos prev := by
  intro infos
  induction infos with
  | nil => intro prev; rfl
  | cons info rest ih =>
      intro prev
      simp only [calcRows, specTotals, List.map_cons, rawTotalAtMinute]
      rw [ite_lt_eq_max]
      rw [ih]

theorem calcRows_length (sorted : List ℚ) :
    ∀ (infos : List MinuteSpec) (prev : ℚ),
      (calcRows sorted infos prev).length = infos.length := by
  intro infos
  induction infos with
  | nil => intro prev; rfl
  | cons info rest ih =>
      intro prev
      simp only [calcRows, List.length_cons, ih]

theorem specTotals_chain (sorted : List ℚ) :
    ∀ (infos : List MinuteSpec) (prev : ℚ),
      List.Chain (· ≤ ·) prev (specTotals sorted infos prev) := by
  intro infos
  induction infos with
  | nil => intro prev; exact List.Chain.nil
  | cons info rest ih =>
      intro prev
      exact List.Chain.cons (le_max_right _ _) (ih _)

theorem specTotals_chain_pairwise (sorted : List ℚ) (infos : List MinuteSpec) (prev : ℚ) :
    List.Chain' (· ≤ ·) (specTotals sorted infos prev) := by
  cases infos with
  | nil => simp [specTotals]
  | cons info rest =>
      show List.Chain' (· ≤ ·)
        (max (rawTotalAtMinute sorted info) prev ::
          specTotals sorted rest (max (rawTotalAtMinute sorted info) prev))
      exact specTotals_chain sorted rest (max (rawTotalAtMinute sorted info) prev)

theorem validateMinutes_ok (inputs : List MinuteInput) :
    ∀ m : ℕ, (∀ inp ∈ inputs, ValidInput inp) →
      ∃ specs : List MinuteSpec,
        validateMinutes inputs m = .ok specs ∧ specs.length = inputs.length := by
  induction inputs with
  | nil => intro m _; exact ⟨[], rfl, rfl⟩
  | cons inp rest ih =>
      intro m hall
      obtain ⟨⟨q, hq, hq0, hq25⟩, hd⟩ := hall inp (by simp)
      obtain ⟨specs, hs, hsl⟩ := ih (m + 1) (fun x hx => hall x (by simp [hx]))
      have hcond : ¬(q < 0 ∨ 25 < q) := by
        push_neg
        exact ⟨hq0, hq25⟩
      have hvm : ∃ spec : MinuteSpec, validateMinute m inp = .ok spec := by
        unfold validateMinute
        rw [hq]
        cases hdir : inp.dir with
        | fOut => exact ⟨⟨m, q, .dirOut⟩, by simp [hcond]⟩
        | fBack => exact ⟨⟨m, q, .dirBack⟩, by simp [hcond]⟩
        | fOther => exact absurd hdir hd
      obtain ⟨spec, hspec⟩ := hvm
      refine ⟨spec :: specs, ?_, by simp [hsl]⟩
      unfold validateMinutes
      rw [hspec, hs]

/-- In live mode, once validation succeeds `calculate` produces the row
table over the sorted copy of the ledger, with both error boxes cleared. -/
theorem calculate_live_ok (s : AppState) (specs : List MinuteSpec)
    (hmode : s.isManualMode = false)
    (hok : validateMinutes s.minuteInputs 1 = .ok specs) :
    ∃ totAll : ℚ,
      calculate s =
        { s with lapError := "", minuteError := "",
                 results := (.table (calcRows (List.insertionSort (· ≤ ·) s.lapTimes) specs 0)
                   totAll (totAll / LAP_LENGTH_M)) } := by
  unfold calculate calcCore
  simp only [hmode, Bool.false_eq_true, if_false]
  rw [hok]
  exact ⟨_, rfl⟩

/-! ## Claim C1: the position-zero special case (code bug in script.js) -/

/-- Claim C1 (status code_bug), evaluation at the failing input: the spec and
the claim demand offset 0 at position 0 for both directions, and
`offsetMetersFromPosDir` of src/unnamed/part_000 — introduced there under the
banner "Math fix: position=0 is always treated as the start line (offset 0)
for BOTH directions" — obeys it; but `positionToOffsetWithinLap` of
src/script.js returns 50 (a full lap) for position 0 on the "back" leg. -/
theorem claim_C1_position_zero :
    positionToOffsetWithinLap 0 .dirBack = 50 ∧
    positionToOffsetWithinLap 0 .dirOut = 0 ∧
    offsetMetersFromPosDir 0 .dirBack = 0 ∧
    offsetMetersFromPosDir 0 .dirOut = 0 := by
  refine ⟨?_, rfl, ?_, ?_⟩
  · norm_num [positionToOffsetWithinLap, LAP_LENGTH_M]
  · norm_num [offsetMetersFromPosDir]
  · norm_num [offsetMetersFromPosDir]

/-! ## Claim C2: the back-leg offset formula -/

/-- Claim C2 as frozen is false on the code: for positionUnits 10 the claim
(and the spec formula LAP_LENGTH/2 - positionUnits) predicts offset 15, but
`positionToOffsetWithinLap` returns 50 - 10 = 40. -/
theorem claim_C2_counterexample :
    positionToOffsetWithinLap 10 .dirBack = 40 ∧
    positionToOffsetWithinLap 10 .dirBack ≠ 25 - 10 := by
  constructor
  · norm_num [positionToOffsetWithinLap, LAP_LENGTH_M]
  · norm_num [positionToOffsetWithinLap, LAP_LENGTH_M]

/-- Claim C2 amended: for positive positions up to 25, direction "out" maps
to the position itself and direction "back" maps to LAP_LENGTH minus the
position (50 - positionUnits), not LAP_LENGTH/2 minus it. -/
theorem claim_C2_amended (p : ℚ) (h0 : 0 < p) (h25 : p ≤ 25) :
    positionToOffsetWithinLap p .dirOut = p ∧
    positionToOffsetWithinLap p .dirBack = LAP_LENGTH_M - p ∧
    positionToOffsetWithinLap p .dirBack = 50 - p := by
  exact ⟨rfl, rfl, rfl⟩

theorem claim_C2_witness :
    (0 : ℚ) < 10 ∧ (10 : ℚ) ≤ 25 ∧
      (positionToOffsetWithinLap 10 .dirOut = 10 ∧
        positionToOffsetWithinLap 10 .dirBack = LAP_LENGTH_M - 10 ∧
        positionToOffsetWithinLap 10 .dirBack = 50 - 10) :=
  ⟨by decide, by decide, claim_C2_amended 10 (by decide) (by decide)⟩

/-! ## Claim C3: the monotonicity clamp of calculate -/

/-- Claim C3: in live mode, for any ledger and six valid checkpoints,
`calculate` raises no error and its cumulative per-minute totals satisfy the
recurrence total(m) = max(lapsCompleted(m)*LAP_LENGTH + offset(m),
total(m-1)) with total(0) = 0 (`specTotals`), hence are non-decreasing. -/
theorem claim_C3_monotone_clamp (s : AppState)
    (hmode : s.isManualMode = false)
    (hlen : s.minuteInputs.length = 6)
    (hvalid : ∀ inp ∈ s.minuteInputs, ValidInput inp) :
    ∃ (rows : List CalcRow) (totAll lapsAll : ℚ) (specs : List MinuteSpec),
      validateMinutes s.minuteInputs 1 = .ok specs ∧
      (calculate s).results = .table rows totAll lapsAll ∧
      (calculate s).minuteError = "" ∧
      rows.length = 6 ∧
      rows.map CalcRow.totalDistanceM =
        specTotals (List.insertionSort (· ≤ ·) s.lapTimes) specs 0 ∧
      List.Chain' (· ≤ ·) (rows.map CalcRow.totalDistanceM) := by
  obtain ⟨specs, hok, hsl⟩ := validateMinutes_ok s.minuteInputs 1 hvalid
  obtain ⟨totAll, hc⟩ := calculate_live_ok s specs hmode hok
  refine ⟨calcRows (List.insertionSort (· ≤ ·) s.lapTimes) specs 0,
    totAll, totAll / LAP_LENGTH_M, specs, hok, by rw [hc], by rw [hc], ?_, ?_, ?_⟩
  · rw [calcRows_length, hsl, hlen]
  · exact calcRows_map_total _ specs 0
  · rw [calcRows_map_total _ specs 0]
    exact specTotals_chain_pairwise _ specs 0

theorem claim_C3_witness :
    (scenarioAState.isManualMode = false ∧ scenarioAState.minuteInputs.length = 6 ∧
      (∀ inp ∈ scenarioAState.minuteInputs, ValidInput inp)) ∧
    (∃ (rows : List CalcRow) (totAll lapsAll : ℚ) (specs : List MinuteSpec),
      validateMinutes scenarioAState.minuteInputs 1 = .ok specs ∧
      (calculate scenarioAState).results = .table rows totAll lapsAll ∧
      (calculate scenarioAState).minuteError = "" ∧
      rows.length = 6 ∧
      rows.map CalcRow.totalDistanceM =
        specTotals (List.insertionSort (· ≤ ·) scenarioAState.lapTimes) specs 0 ∧
      List.Chain' (· ≤ ·) (rows.map CalcRow.totalDistanceM)) := by
  have hvalid : ∀ inp ∈ scenarioAState.minuteInputs, ValidInput inp := by
    intro inp hmem
    have : inp = ⟨PosField.val 0, DirField.fOut⟩ := by
      simpa [scenarioAState, initState] using List.eq_of_mem_replicate hmem
    rw [this]
    exact ⟨⟨0, rfl, by decide, by decide⟩, by decide⟩
  exact ⟨⟨rfl, rfl, hvalid⟩, claim_C3_monotone_clamp scenarioAState rfl rfl hvalid⟩

/-! ## Claim C4: Scenario A and lap counting at the minute marks -/

/-- Claim C4: on a sorted ledger the scan of `getLapsCompletedByTime` counts
exactly the entries at or below the query time (ties count as completed);
and for ledger 65, 130, 205 with all checkpoints (0, out), `calculate`
returns cumulative totals 0, 50, 100, 150, 150, 150, grand total 150 and
3.0 laps. -/
theorem claim_C4_scenarioA :
    (∀ (l : List ℚ) (t : ℚ), List.Sorted (· ≤ ·) l →
        getLapsCompletedByTime l t = l.countP (fun x => decide (x ≤ t))) ∧
    (∃ rows : List CalcRow,
        (calculate scenarioAState).results = .table rows 150 3 ∧
        rows.map CalcRow.totalDistanceM = [0, 50, 100, 150, 150, 150]) := by
  constructor
  · intro l
    induction l with
    | nil => intro t _; rfl
    | cons x xs ih =>
        intro t hs
        rw [List.sorted_cons] at hs
        rw [List.countP_cons]
        by_cases hxt : x ≤ t
        · simp [getLapsCompletedByTime, hxt, ih t hs.2, Nat.add_comm]
        · have hz : xs.countP (fun y => decide (y ≤ t)) = 0 := by
            rw [List.countP_eq_zero]
            intro a ha
            simpa using fun hat => hxt (le_trans (hs.1 a ha) hat)
          simp [getLapsCompletedByTime, hxt, hz]
  · refine ⟨[⟨1, 60, 0, 0, 0⟩, ⟨2, 120, 50, 1, 50⟩, ⟨3, 180, 50, 1, 100⟩,
      ⟨4, 240, 50, 1, 150⟩, ⟨5, 300, 0, 0, 150⟩, ⟨6, 360, 0, 0, 150⟩], ?_, by norm_num⟩
    norm_num [calculate, calcCore, scenarioAState, initState, validateMinutes, validateMinute,
      List.replicate, calcRows, getLapsCompletedByTime, positionToOffsetWithinLap, LAP_LENGTH_M,
      List.insertionSort, List.orderedInsert]

theorem claim_C4_witness :
    List.Sorted (· ≤ ·) [(40 : ℚ)] ∧
      getLapsCompletedByTime [(40 : ℚ)] 100 =
        List.countP (fun x => decide (x ≤ (100 : ℚ))) [(40 : ℚ)] := by
  have hs : List.Sorted (· ≤ ·) [(40 : ℚ)] := List.sorted_singleton _
  exact ⟨hs, claim_C4_scenarioA.1 [(40 : ℚ)] 100 hs⟩

/-! ## Claim C10: calculate never mutates the ledger in live mode -/

/-- Claim C10: with manual mode off, `calculate` reads only a sorted copy of
`lapTimes`; the stored array is element-for-element unchanged whether the
call validates successfully or returns early on a checkpoint error. -/
theorem claim_C10_ledger_frame (s : AppState) (hmode : s.isManualMode = false) :
    (calculate s).lapTimes = s.lapTimes := by
  unfold calculate calcCore
  simp only [hmode, Bool.false_eq_true, if_false]
  rcases hv : validateMinutes s.minuteInputs 1 with e | specs <;> simp

theorem claim_C10_witness : (calculate initState).lapTimes = initState.lapTimes :=
  claim_C10_ledger_frame initState rfl

/-! ## Timer invariant lemmas -/

theorem timerInv_init : TimerInv initState := by
  constructor
  · norm_num [initState, maxMs]
  · intro h
    simp [initState] at h

theorem startTimer_timerInv (s : AppState) (ih : TimerInv s) : TimerInv (startTimer s) := by
  unfold startTimer
  by_cases h : s.running = true
  · rw [if_pos h]; exact ih
  · rw [if_neg h]
    refine ⟨ih.1, ?_⟩
    intro hf
    simp at hf

theorem stopTimer_timerInv (s : AppState) (d : ℚ) (ih : TimerInv s) :
    TimerInv (stopTimer d s) := by
  unfold stopTimer
  by_cases h : s.running = false
  · rw [if_pos h]; exact ih
  · rw [if_neg h]
    refine ⟨?_, ?_⟩
    · show (if maxMs < s.elapsedMs + d then maxMs else s.elapsedMs + d) ≤ maxMs
      split
      · exact le_refl maxMs
      · exact le_of_not_lt (by assumption)
    · intro hf
      simp at hf

theorem tick_timerInv (s : AppState) (d : ℚ) (ih : TimerInv s) : TimerInv (tick d s) := by
  unfold tick
  by_cases h : s.running = false
  · rw [if_pos h]; exact ih
  · rw [if_neg h]
    by_cases hc : maxMs ≤ s.elapsedMs + d
    · rw [if_pos hc]
      exact ⟨le_refl maxMs, fun _ => ⟨rfl, rfl, rfl, rfl⟩⟩
    · rw [if_neg hc]
      refine ⟨le_of_lt (lt_of_not_ge hc), ?_⟩
      intro hf
      exact absurd (ih.2 hf).2.1 h

theorem resetTimer_timerInv (s : AppState) : TimerInv (resetTimer s) := by
  constructor
  · norm_num [resetTimer, maxMs]
  · intro hf
    simp [resetTimer] at hf

theorem timerInv_ite (c : Prop) [Decidable c] (a b : AppState)
    (ha : TimerInv a) (hb : TimerInv b) : TimerInv (if c then a else b) := by
  split
  · exact ha
  · exact hb

theorem recordLap_timerInv (s : AppState) (d : ℚ) (ih : TimerInv s) :
    TimerInv (recordLap d s) := by
  unfold recordLap
  split
  · exact ih
  · split
    · dsimp only
      split
      · exact ⟨ih.1, ih.2⟩
      · exact ⟨ih.1, ih.2⟩
    · exact ⟨ih.1, ih.2⟩

theorem toggleTimer_timerInv (s : AppState) (d : ℚ) (ih : TimerInv s) :
    TimerInv (toggleTimer d s) := by
  unfold toggleTimer
  dsimp only
  split
  · exact startTimer_timerInv _ ⟨ih.1, ih.2⟩
  · exact stopTimer_timerInv _ _ ⟨ih.1, ih.2⟩

theorem sync_timerInv (s : AppState) (ih : TimerInv s) :
    TimerInv (syncLapTimesFromManualTable s).1 := by
  unfold syncLapTimesFromManualTable
  split
  · exact ⟨ih.1, ih.2⟩
  · split <;> exact ⟨ih.1, ih.2⟩

theorem clearManual_timerInv (s : AppState) (ih : TimerInv s) :
    TimerInv (clearManualLapTableToSingleRow s) := ⟨ih.1, ih.2⟩

theorem refresh_timerInv (s : AppState) (ih : TimerInv s) :
    TimerInv (refreshStopwatchButtonState s) := by
  unfold refreshStopwatchButtonState
  split
  · exact ⟨ih.1, fun hf => ⟨(ih.2 hf).1, (ih.2 hf).2.1, rfl, rfl⟩⟩
  · refine ⟨ih.1, fun hf => ⟨(ih.2 hf).1, (ih.2 hf).2.1, ?_, ?_⟩⟩
    · exact decide_eq_true hf
    · exact decide_eq_true (Or.inr hf)

theorem calcCore_timerInv (s : AppState) (ih : TimerInv s) : TimerInv (calcCore s) := by
  unfold calcCore
  split <;> exact ⟨ih.1, ih.2⟩

theorem calculate_timerInv (s : AppState) (ih : TimerInv s) : TimerInv (calculate s) := by
  unfold calculate
  dsimp only
  split
  · split
    · next s2 heq =>
        apply calcCore_timerInv
        have h := sync_timerInv _ (⟨ih.1, ih.2⟩ :
          TimerInv { s with lapError := "", minuteError := "" })
        rw [heq] at h
        exact h
    · next s2 heq =>
        have h := sync_timerInv _ (⟨ih.1, ih.2⟩ :
          TimerInv { s with lapError := "", minuteError := "" })
        rw [heq] at h
        exact ⟨h.1, h.2⟩
  · exact calcCore_timerInv _ ⟨ih.1, ih.2⟩

theorem setManualMode_timerInv (flag : Bool) (d : ℚ) (s : AppState) (ih : TimerInv s) :
    TimerInv (setManualMode flag d s) := by
  unfold setManualMode
  dsimp only
  apply refresh_timerInv
  refine timerInv_ite _ _ _ ?_ ?_
  · apply sync_timerInv
    refine timerInv_ite _ _ _ ?_ ?_
    · apply clearManual_timerInv
      refine timerInv_ite _ _ _ ?_ ?_
      · exact stopTimer_timerInv _ _ ⟨ih.1, ih.2⟩
      · exact ⟨ih.1, ih.2⟩
    · refine timerInv_ite _ _ _ ?_ ?_
      · exact stopTimer_timerInv _ _ ⟨ih.1, ih.2⟩
      · exact ⟨ih.1, ih.2⟩
  · refine timerInv_ite _ _ _ ?_ ?_
    · apply clearManual_timerInv
      refine timerInv_ite _ _ _ ?_ ?_
      · exact stopTimer_timerInv _ _ ⟨ih.1, ih.2⟩
      · exact ⟨ih.1, ih.2⟩
    · refine timerInv_ite _ _ _ ?_ ?_
      · exact stopTimer_timerInv _ _ ⟨ih.1, ih.2⟩
      · exact ⟨ih.1, ih.2⟩

theorem reach_timerInv (s : AppState) (h : Reach s) : TimerInv s := by
  induction h with
  | init => exact timerInv_init
  | toggle s d hr hd ih =>
      simp only [stepFn]
      split
      · exact ih
      · exact toggleTimer_timerInv _ _ ih
  | lap s d hr hd ih =>
      simp only [stepFn]
      split
      · exact ih
      · exact recordLap_timerInv _ _ ih
  | reset s hr ih =>
      simp only [stepFn]
      split
      · exact ih
      · exact resetTimer_timerInv _
  | tickStep s d hr hd ih => exact tick_timerInv _ _ ih
  | manualToggle s flag d hr hd ih => exact setManualMode_timerInv _ _ _ ih
  | calcClick s hr ih => exact calculate_timerInv _ ih
  | editCells s cells hr ih =>
      simp only [stepFn]
      split
      · exact ⟨ih.1, ih.2⟩
      · exact ih
  | manualEnter s hr ih =>
      simp only [stepFn]
      split
      · exact sync_timerInv _ ih
      · exact ih
  | manualClear s hr ih =>
      simp only [stepFn]
      split
      · exact ⟨ih.1, ih.2⟩
      · exact ih
  | editMinutes s inputs hr ih => exact ⟨ih.1, ih.2⟩

/-! ## Claim C5: the 6-minute ceiling -/

/-- Claim C5 as frozen is false on the code: reaching the ceiling through
`stopTimer` clamps the elapsed time at exactly 360000 ms but does not enter
the Finished condition — after Start, a tick at 359.0 s and a Stop consuming
2.0 s more, the reachable state holds elapsed = 360000 with the toggle
button labelled "Start" and enabled. -/
theorem claim_C5_counterexample :
    Reach c5TraceState ∧ c5TraceState.elapsedMs = maxMs ∧
      c5TraceState.running = false ∧ c5TraceState.toggleLabel = .startLbl ∧
      c5TraceState.toggleDisabled = false := by
  refine ⟨?_, ?_, ?_, ?_, ?_⟩
  · exact Reach.toggle _ 2000
      (Reach.tickStep _ 359000
        (Reach.toggle _ 0 Reach.init (by norm_num)) (by norm_num)) (by norm_num)
  all_goals
    norm_num [c5TraceState, stepFn, toggleTimer, startTimer, stopTimer, tick,
      initState, maxMs]

/-- Claim C5 amended: in every reachable state the stored elapsed time is at
most 360000 ms, and a Finished label only occurs locked (elapsed exactly at
the ceiling, not running, Start and Lap disabled); a tick that meets or
passes the ceiling while running clamps at exactly 360000 ms and enters that
Finished configuration; ticks sample nothing once the timer is not running,
so sampling after the finish returns exactly 360.0 s; Stop past the ceiling
also clamps at exactly 360000 ms but leaves the ordinary stopped state
(label Start, Start button disabled-state unchanged) rather than Finished;
Reset re-enables Start and zeroes the elapsed time. -/
theorem claim_C5_amended :
    (∀ s : AppState, Reach s → TimerInv s) ∧
    (∀ (s : AppState) (d : ℚ), 0 ≤ d → s.running = true → maxMs ≤ s.elapsedMs + d →
      tick d s =
        { s with elapsedMs := maxMs, running := false,
                 toggleLabel := .finishedLbl, toggleDisabled := true, lapDisabled := true }) ∧
    (∀ (s : AppState) (d : ℚ), s.running = false → tick d s = s) ∧
    (∀ (s : AppState) (d : ℚ), s.running = true → maxMs < s.elapsedMs + d →
      stopTimer d s =
        { s with elapsedMs := maxMs, running := false,
                 toggleLabel := .startLbl, lapDisabled := true }) ∧
    (∀ s : AppState, (resetTimer s).toggleDisabled = false ∧
      (resetTimer s).elapsedMs = 0 ∧ (resetTimer s).toggleLabel = .startLbl) := by
  refine ⟨reach_timerInv, ?_, ?_, ?_, fun s => ⟨rfl, rfl, rfl⟩⟩
  · intro s d _ hrun hc
    unfold tick
    rw [if_neg (by simp [hrun]), if_pos hc]
  · intro s d hrun
    unfold tick
    rw [if_pos hrun]
  · intro s d hrun hc
    unfold stopTimer
    rw [if_neg (by simp [hrun])]
    dsimp only
    rw [if_pos hc]

theorem claim_C5_witness :
    TimerInv initState ∧
      (tick 360000 { initState with running := true }).elapsedMs = maxMs ∧
      (tick 360000 { initState with running := true }).running = false ∧
      (tick 360000 { initState with running := true }).toggleLabel = .finishedLbl ∧
      (tick 360000 { initState with running := true }).toggleDisabled = true := by
  have h := claim_C5_amended.2.1 { initState with running := true } 360000
    (by decide) rfl (by simp [initState, maxMs])
  exact ⟨claim_C5_amended.1 initState Reach.init, by rw [h], by rw [h], by rw [h], by rw [h]⟩

/-! ## Claim C6: lap recording -/

/-- Claim C6: `recordLap` is a silent no-op when the timer is not running;
when running, a sample at or below the last ledger entry is rejected with the
advisory message and the ledger and timer fields unchanged (in particular
ledger 40 with a sample at 39.9 s stays exactly at 40); otherwise the
sample is appended. -/
theorem claim_C6_record_lap :
    (∀ (s : AppState) (d : ℚ), s.running = false → recordLap d s = s) ∧
    (∀ (s : AppState) (d : ℚ) (lastLap : ℚ), s.running = true →
      s.lapTimes.getLast? = some lastLap → (s.elapsedMs + d) / 1000 ≤ lastLap →
      recordLap d s =
        { s with lapError :=
            "Lap ignored: lap time must be greater than previous lap time." }) ∧
    (∀ (s : AppState) (d : ℚ) (lastLap : ℚ), s.running = true →
      s.lapTimes.getLast? = some lastLap → lastLap < (s.elapsedMs + d) / 1000 →
      recordLap d s =
        { s with lapTimes := s.lapTimes ++ [(s.elapsedMs + d) / 1000], lapError := "" }) ∧
    (∀ (s : AppState) (d : ℚ), s.running = true → s.lapTimes = [] →
      recordLap d s =
        { s with lapTimes := s.lapTimes ++ [(s.elapsedMs + d) / 1000], lapError := "" }) ∧
    ((recordLap 0 scenarioEState).lapTimes = [40] ∧
      (recordLap 0 scenarioEState).lapError =
        "Lap ignored: lap time must be greater than previous lap time." ∧
      (recordLap 0 scenarioEState).elapsedMs = scenarioEState.elapsedMs ∧
      (recordLap 0 scenarioEState).running = true) := by
  have hnoop : ∀ (s : AppState) (d : ℚ), s.running = false → recordLap d s = s := by
    intro s d hrun
    unfold recordLap
    rw [if_pos hrun]
  have hrej : ∀ (s : AppState) (d : ℚ) (lastLap : ℚ), s.running = true →
      s.lapTimes.getLast? = some lastLap → (s.elapsedMs + d) / 1000 ≤ lastLap →
      recordLap d s =
        { s with lapError :=
            "Lap ignored: lap time must be greater than previous lap time." } := by
    intro s d lastLap hrun hlast hle
    unfold recordLap
    rw [if_neg (by simp [hrun]), hlast]
    dsimp only
    rw [if_pos hle]
  refine ⟨hnoop, hrej, ?_, ?_, ?_⟩
  · intro s d lastLap hrun hlast hlt
    unfold recordLap
    rw [if_neg (by simp [hrun]), hlast]
    dsimp only
    rw [if_neg (not_le.mpr hlt)]
  · intro s d hrun hempty
    unfold recordLap
    rw [if_neg (by simp [hrun]), hempty]
    rfl
  · have h := hrej scenarioEState 0 40 rfl (by simp [scenarioEState, initState])
      (by norm_num [scenarioEState, initState])
    refine ⟨?_, ?_, ?_, ?_⟩ <;> rw [h] <;> simp [scenarioEState, initState]

theorem claim_C6_witness : recordLap 0 initState = initState :=
  claim_C6_record_lap.1 initState 0 rfl

/-! ## Evaluation lemmas for the variant-2 parser and the formatters -/

theorem takeWhile_eq_self_of_all {α : Type} (p : α → Bool) (cs : List α)
    (h : ∀ c ∈ cs, p c = true) : cs.takeWhile p = cs := by
  induction cs with
  | nil => rfl
  | cons c rest ih =>
      rw [List.takeWhile_cons, if_pos (h c (by simp)), ih (fun z hz => h z (by simp [hz]))]

theorem dropWhile_eq_nil_of_all {α : Type} (p : α → Bool) (cs : List α)
    (h : ∀ c ∈ cs, p c = true) : cs.dropWhile p = [] := by
  induction cs with
  | nil => rfl
  | cons c rest ih =>
      rw [List.dropWhile_cons, if_pos (h c (by simp))]
      exact ih (fun z hz => h z (by simp [hz]))

theorem pad2_two_le (n : ℕ) : 2 ≤ (pad2 n).length := by
  unfold pad2
  by_cases h : (natRepr n).length < 2
  · rw [if_pos h]
    have := List.length_pos.mpr (natRepr_ne_nil n)
    simp only [List.length_cons]
    omega
  · rw [if_neg h]
    omega

theorem parseTime_digits_eval (cs : List Char) (hne : cs ≠ []) (hlen : cs.length ≤ 6)
    (h : ∀ c ∈ cs, PlainDigit c) :
    parseFlexibleTimeToSeconds cs = some (natOfDigits cs) := by
  unfold parseFlexibleTimeToSeconds
  rw [jsTrim_eq_self _ (fun c hc => (h c hc).2.1)]
  cases cs with
  | nil => exact absurd rfl hne
  | cons c rest =>
      have hcp : PlainDigit c := h c (by simp)
      dsimp only
      split
      · next heq => exact absurd heq (by simp)
      · next ds heq =>
          have : c = ':' := (List.cons.injEq _ _ _ _ ▸ heq).1
          exact absurd this hcp.2.2.1
      · next _ _ =>
          rw [takeWhile_eq_self_of_all _ _
            (fun z hz => decide_eq_true ((h z hz).2.2.1)),
            dropWhile_eq_nil_of_all _ _
            (fun z hz => decide_eq_true ((h z hz).2.2.1))]
          dsimp only
          rw [if_pos ⟨hlen, all_digits_of_plain _ h⟩]

theorem parseTime_colon_lead_eval (ss : List Char) (hne : ss ≠ []) (hlen : ss.length ≤ 3)
    (h : ∀ c ∈ ss, PlainDigit c) :
    parseFlexibleTimeToSeconds (':' :: ss) = some (natOfDigits ss) := by
  unfold parseFlexibleTimeToSeconds
  rw [jsTrim_eq_self _ (by
    intro c hc
    rcases List.mem_cons.mp hc with hc | hc
    · subst hc; decide
    · exact (h c hc).2.1)]
  show (if ss ≠ [] ∧ ss.length ≤ 3 ∧ ss.all Char.isDigit then some (natOfDigits ss)
    else none) = some (natOfDigits ss)
  rw [if_pos ⟨hne, hlen, all_digits_of_plain _ h⟩]

theorem parseTime_colon_eval (ms ss : List Char) (hmne : ms ≠ [])
    (hm : ∀ c ∈ ms, PlainDigit c) (hsne : ss ≠ []) (hs : ∀ c ∈ ss, PlainDigit c) :
    parseFlexibleTimeToSeconds (ms ++ ':' :: ss) =
      some (natOfDigits ms * 60 + natOfDigits ss) := by
  unfold parseFlexibleTimeToSeconds
  rw [jsTrim_eq_self _ (by
    intro c hc
    rcases List.mem_append.mp hc with hc | hc
    · exact (hm c hc).2.1
    · rcases List.mem_cons.mp hc with hc | hc
      · subst hc; decide
      · exact (hs c hc).2.1)]
  cases ms with
  | nil => exact absurd rfl hmne
  | cons c mrest =>
      have hcp : PlainDigit c := hm c (by simp)
      rw [List.cons_append]
      dsimp only
      split
      · next heq => exact absurd heq (by simp)
      · next ds heq =>
          have : c = ':' := (List.cons.injEq _ _ _ _ ▸ heq).1
          exact absurd this hcp.2.2.1
      · next _ _ =>
          rw [← List.cons_append,
            (split_at_colon (c :: mrest) ss hm).1, (split_at_colon (c :: mrest) ss hm).2]
          dsimp only
          rw [if_pos ⟨hmne, all_digits_of_plain _ hm, hsne, all_digits_of_plain _ hs⟩]

/-! ## Claim C7: the manual-entry cell grammar -/

/-- Claim C7 as frozen is false on the code: neither parser accepts a
trailing tenths suffix (the claimed ".digit adds tenths/10" behavior), and
the first-variant cell parser also rejects a leading colon with three
digits. -/
theorem claim_C7_counterexample :
    parseFlexibleMmSsToSeconds (jsStr "2:15.5") = none ∧
    parseFlexibleTimeToSeconds (jsStr "2:15.5") = none ∧
    parseFlexibleMmSsToSeconds (jsStr ":123") = none := by
  exact ⟨by decide, by decide, by decide⟩

/-- Claim C7 amended: pure digit strings parse to whole seconds (up to six
digits for the variant-2 parser); a leading colon admits one or two digits
of seconds in `parseFlexibleMmSsToSeconds` and one to three in
`parseFlexibleTimeToSeconds`; `digits:digits` parses as minutes*60 + seconds
with arithmetic carry-over (seconds limited to two digits in the first
parser), so "2:75" parses to exactly 195; no tenths suffix is accepted
(a trailing dot-digit makes the cell unparseable — see the
counterexample). -/
theorem claim_C7_amended :
    (∀ n : ℕ, parseFlexibleMmSsToSeconds (natRepr n) = some n) ∧
    (∀ n : ℕ, n ≤ 999999 → parseFlexibleTimeToSeconds (natRepr n) = some n) ∧
    (∀ sec : ℕ, sec < 100 → parseFlexibleMmSsToSeconds (':' :: natRepr sec) = some sec) ∧
    (∀ sec : ℕ, sec ≤ 999 → parseFlexibleTimeToSeconds (':' :: natRepr sec) = some sec) ∧
    (∀ m sec : ℕ, sec < 100 →
      parseFlexibleMmSsToSeconds (natRepr m ++ ':' :: natRepr sec) = some (m * 60 + sec)) ∧
    (∀ m sec : ℕ,
      parseFlexibleTimeToSeconds (natRepr m ++ ':' :: natRepr sec) = some (m * 60 + sec)) ∧
    (parseFlexibleMmSsToSeconds (jsStr "2:75") = some 195 ∧
      parseFlexibleTimeToSeconds (jsStr "2:75") = some 195) := by
  refine ⟨?_, ?_, ?_, ?_, ?_, ?_, by decide, by decide⟩
  · intro n
    rw [parseMmSs_digits_eval (natRepr n) (natRepr_ne_nil n) (natRepr_plain n),
      natOfDigits_natRepr]
  · intro n hn
    rw [parseTime_digits_eval (natRepr n) (natRepr_ne_nil n)
      (natRepr_length_le 6 n (by omega) (by omega)) (natRepr_plain n),
      natOfDigits_natRepr]
  · intro sec hsec
    have h := parseMmSs_colon_eval [] (natRepr sec) (by simp) (natRepr_plain sec)
      (natRepr_ne_nil sec) (natRepr_length_le_two sec hsec)
    simp only [List.nil_append] at h
    rw [h, natOfDigits_nil, natOfDigits_natRepr]
    norm_num
  · intro sec hsec
    rw [parseTime_colon_lead_eval (natRepr sec) (natRepr_ne_nil sec)
      (natRepr_length_le 3 sec (by omega) (by omega)) (natRepr_plain sec),
      natOfDigits_natRepr]
  · intro m sec hsec
    rw [parseMmSs_colon_eval (natRepr m) (natRepr sec) (natRepr_plain m)
      (natRepr_plain sec) (natRepr_ne_nil sec) (natRepr_length_le_two sec hsec),
      natOfDigits_natRepr, natOfDigits_natRepr]
  · intro m sec
    rw [parseTime_colon_eval (natRepr m) (natRepr sec) (natRepr_ne_nil m)
      (natRepr_plain m) (natRepr_ne_nil sec) (natRepr_plain sec),
      natOfDigits_natRepr, natOfDigits_natRepr]

theorem claim_C7_witness :
    (75 : ℕ) < 100 ∧
      parseFlexibleMmSsToSeconds (natRepr 2 ++ ':' :: natRepr 75) = some (2 * 60 + 75) :=
  ⟨by decide, claim_C7_amended.2.2.2.2.1 2 75 (by decide)⟩

/-! ## Claim C9: round-trip of formatting and parsing -/

/-- Claim C9 as frozen is false on the code: `formatTimeSeconds` always
prints a tenths suffix and the manual-entry parser accepts none, so already
at duration 0 the formatted string "00:00.0" fails to parse at all. -/
theorem claim_C9_counterexample :
    parseFlexibleMmSsToSeconds (formatTimeSeconds 0) = none ∧
      formatTimeSeconds 0 = jsStr "00:00.0" := by
  have h2 : formatTimeSeconds 0 = jsStr "00:00.0" := by
    unfold formatTimeSeconds
    norm_num
    decide
  exact ⟨by rw [h2]; decide, h2⟩

/-- Claim C9 amended: the round trip holds through the manual-mode formatter
`formatMmSs` at whole-second precision — for every whole duration up to 360 s
the formatted `mm:ss` string parses back to the same value — while the
display string of `formatTimeSeconds` (`mm:ss.t`) is rejected by the parser
for every duration in the claimed range. -/
theorem claim_C9_amended :
    (∀ n : ℕ, n ≤ 360 → parseFlexibleMmSsToSeconds (formatMmSs (n : ℚ)) = some n) ∧
    (∀ q : ℚ, 0 ≤ q → q ≤ 360 → parseFlexibleMmSsToSeconds (formatTimeSeconds q) = none) := by
  constructor
  · intro n hn
    have hw : ((⌊(n : ℚ)⌋).toNat) = n := by
      rw [Int.floor_natCast]
      exact Int.toNat_natCast n
    unfold formatMmSs
    rw [hw]
    rw [parseMmSs_colon_eval (pad2 (n / 60)) (pad2 (n % 60)) (pad2_plain _) (pad2_plain _)
      (pad2_ne_nil _) (le_of_eq (pad2_length (n % 60) (by omega)))]
    rw [natOfDigits_pad2, natOfDigits_pad2]
    have hdm : n / 60 * 60 + n % 60 = n := by omega
    rw [hdm]
  · intro q h0 h360
    unfold formatTimeSeconds
    apply parseMmSs_colon_long_eval
    · exact pad2_plain _
    · intro c hc
      rcases List.mem_append.mp hc with hc | hc
      · exact (pad2_plain _ c hc).2.1
      · rcases List.mem_cons.mp hc with hc | hc
        · subst hc; decide
        · exact (natRepr_plain _ c hc).2.1
    · rw [List.length_append, List.length_cons]
      have h1 := pad2_two_le ((⌊q⌋).toNat % 60)
      omega

theorem claim_C9_witness :
    (195 : ℕ) ≤ 360 ∧ parseFlexibleMmSsToSeconds (formatMmSs ((195 : ℕ) : ℚ)) = some 195 :=
  ⟨by decide, claim_C9_amended.1 195 (by decide)⟩

/-! ## Manual-table lemmas -/

theorem chainGt_none_cons (v : ℕ) (vs : List ℕ) :
    ChainGt none (v :: vs) = ChainGt (some v) vs := rfl

theorem chainGt_some_cons (p v : ℕ) (vs : List ℕ) :
    ChainGt (some p) (v :: vs) = (p < v ∧ ChainGt (some v) vs) := rfl

theorem chainGt_some_iff : ∀ (l : List ℕ) (p : ℕ),
    ChainGt (some p) l ↔ List.Chain (· < ·) p l := by
  intro l
  induction l with
  | nil =>
      intro p
      exact ⟨fun _ => List.Chain.nil, fun _ => trivial⟩
  | cons v vs ih =>
      intro p
      rw [chainGt_some_cons, List.chain_cons, ih v]

theorem chainGt_none_iff (l : List ℕ) : ChainGt none l ↔ List.Chain' (· < ·) l := by
  cases l with
  | nil => exact ⟨fun _ => trivial, fun _ => trivial⟩
  | cons v vs => rw [chainGt_none_cons, chainGt_some_iff vs v]; exact Iff.rfl

theorem trimmedCells_cons (c : List Char) (cs : List (List Char)) :
    trimmedCells (c :: cs) = jsTrim c :: trimmedCells cs := rfl

theorem isEmpty_false_of_ne (c : List Char) (h : c ≠ []) : c.isEmpty = false := by
  rw [Bool.eq_false_iff]
  intro hh
  exact h (List.isEmpty_iff.mp hh)

theorem nonBlankCells_cons_blank (cell : List Char) (rest : List (List Char))
    (hr : jsTrim cell = []) : nonBlankCells (cell :: rest) = nonBlankCells rest := by
  simp [nonBlankCells, trimmedCells_cons, List.filter_cons, hr]

theorem nonBlankCells_cons_filled (cell : List Char) (rest : List (List Char))
    (hr : jsTrim cell ≠ []) :
    nonBlankCells (cell :: rest) = jsTrim cell :: nonBlankCells rest := by
  simp [nonBlankCells, trimmedCells_cons, List.filter_cons, isEmpty_false_of_ne _ hr]

theorem pass2_all_blank : ∀ (cells : List (List Char)) (i : ℕ),
    syncPass2 cells true i = none ↔ (trimmedCells cells).all (fun c => c.isEmpty) = true := by
  intro cells
  induction cells with
  | nil => intro i; simp [syncPass2, trimmedCells]
  | cons cell rest ih =>
      intro i
      by_cases hr : jsTrim cell = []
      · simp [syncPass2, hr, trimmedCells_cons, ih (i + 1)]
      · simp [syncPass2, hr, trimmedCells_cons, isEmpty_false_of_ne _ hr]

theorem pass2_none_iff : ∀ (cells : List (List Char)) (i : ℕ),
    syncPass2 cells false i = none ↔ NoGapB cells = true := by
  intro cells
  induction cells with
  | nil => intro i; simp [syncPass2, NoGapB, trimmedCells]
  | cons cell rest ih =>
      intro i
      by_cases hr : jsTrim cell = []
      · rw [show syncPass2 (cell :: rest) false i = syncPass2 rest true (i + 1) from by
          simp [syncPass2, hr]]
        rw [pass2_all_blank rest (i + 1)]
        simp [NoGapB, trimmedCells_cons, List.dropWhile_cons, hr]
      · rw [show syncPass2 (cell :: rest) false i = syncPass2 rest false (i + 1) from by
          simp [syncPass2, hr]]
        rw [ih (i + 1)]
        simp [NoGapB, trimmedCells_cons, List.dropWhile_cons, isEmpty_false_of_ne _ hr]

theorem parsedCells_cons_blank (cell : List Char) (rest : List (List Char))
    (hr : jsTrim cell = []) : parsedCells (cell :: rest) = parsedCells rest := by
  simp [parsedCells, nonBlankCells_cons_blank cell rest hr]

theorem parsedCells_cons_some (cell : List Char) (rest : List (List Char)) (v : ℕ)
    (hr : jsTrim cell ≠ []) (hp : parseFlexibleMmSsToSeconds (jsTrim cell) = some v) :
    parsedCells (cell :: rest) = v :: parsedCells rest := by
  simp [parsedCells, nonBlankCells_cons_filled cell rest hr, List.filterMap_cons, hp]

theorem pass1_ok_iff : ∀ (cells : List (List Char)) (se : Bool) (prev : Option ℕ) (i : ℕ),
    (∃ l, syncPass1 true cells se prev i = .ok l) ↔
      ((∀ c ∈ nonBlankCells cells, parseFlexibleMmSsToSeconds c ≠ none) ∧
        ChainGt prev (parsedCells cells)) := by
  intro cells
  induction cells with
  | nil =>
      intro se prev i
      simp [syncPass1, nonBlankCells, parsedCells, trimmedCells, ChainGt]
  | cons cell rest ih =>
      intro se prev i
      by_cases hr : jsTrim cell = []
      · rw [show syncPass1 true (cell :: rest) se prev i = syncPass1 true rest true prev (i + 1)
            from by simp [syncPass1, hr]]
        rw [nonBlankCells_cons_blank cell rest hr, parsedCells_cons_blank cell rest hr]
        exact ih true prev (i + 1)
      · cases hp : parseFlexibleMmSsToSeconds (jsTrim cell) with
        | none =>
            constructor
            · rintro ⟨l, hl⟩
              rw [show syncPass1 true (cell :: rest) se prev i =
                  .error ⟨i + 1, .badCell (jsTrim cell)⟩ from by simp [syncPass1, hr, hp]] at hl
              cases hl
            · rintro ⟨hall, _⟩
              exact absurd hp
                (hall (jsTrim cell) (by rw [nonBlankCells_cons_filled cell rest hr]; simp))
        | some v =>
            have hmem : ∀ c ∈ nonBlankCells (cell :: rest),
                c = jsTrim cell ∨ c ∈ nonBlankCells rest := by
              intro c hc
              rw [nonBlankCells_cons_filled cell rest hr] at hc
              exact List.mem_cons.mp hc
            have hstepAll : (∀ c ∈ nonBlankCells rest, parseFlexibleMmSsToSeconds c ≠ none) →
                ∀ c ∈ nonBlankCells (cell :: rest), parseFlexibleMmSsToSeconds c ≠ none := by
              intro hrest c hc
              rcases hmem c hc with hc | hc
              · rw [hc, hp]; simp
              · exact hrest c hc
            cases prev with
            | none =>
                rw [show syncPass1 true (cell :: rest) se none i =
                    Except.map (fun l => v :: l) (syncPass1 true rest se (some v) (i + 1))
                    from by simp [syncPass1, hr, hp]]
                rw [parsedCells_cons_some cell rest v hr hp, chainGt_none_cons]
                constructor
                · rintro ⟨l, hl⟩
                  cases hrec : syncPass1 true rest se (some v) (i + 1) with
                  | error e => rw [hrec] at hl; exact absurd hl (by simp [Except.map])
                  | ok l' =>
                      have hih := (ih se (some v) (i + 1)).mp ⟨l', hrec⟩
                      exact ⟨hstepAll hih.1, hih.2⟩
                · rintro ⟨hall, hchain⟩
                  obtain ⟨l', hl'⟩ := (ih se (some v) (i + 1)).mpr
                    ⟨fun c hc => hall c (by
                      rw [nonBlankCells_cons_filled cell rest hr]; simp [hc]), hchain⟩
                  exact ⟨v :: l', by rw [hl']; rfl⟩
            | some p =>
                by_cases hvp : v ≤ p
                · constructor
                  · rintro ⟨l, hl⟩
                    rw [show syncPass1 true (cell :: rest) se (some p) i =
                        .error ⟨i + 1, .notIncreasing⟩ from by simp [syncPass1, hr, hp, hvp]] at hl
                    cases hl
                  · rintro ⟨_, hchain⟩
                    rw [parsedCells_cons_some cell rest v hr hp, chainGt_some_cons] at hchain
                    omega
                · rw [show syncPass1 true (cell :: rest) se (some p) i =
                      Except.map (fun l => v :: l) (syncPass1 true rest se (some v) (i + 1))
                      from by simp [syncPass1, hr, hp, hvp]]
                  rw [parsedCells_cons_some cell rest v hr hp, chainGt_some_cons]
                  constructor
                  · rintro ⟨l, hl⟩
                    cases hrec : syncPass1 true rest se (some v) (i + 1) with
                    | error e => rw [hrec] at hl; exact absurd hl (by simp [Except.map])
                    | ok l' =>
                        have hih := (ih se (some v) (i + 1)).mp ⟨l', hrec⟩
                        exact ⟨hstepAll hih.1, not_le.mp hvp, hih.2⟩
                  · rintro ⟨hall, _, hchain⟩
                    obtain ⟨l', hl'⟩ := (ih se (some v) (i + 1)).mpr
                      ⟨fun c hc => hall c (by
                        rw [nonBlankCells_cons_filled cell rest hr]; simp [hc]), hchain⟩
                    exact ⟨v :: l', by rw [hl']; rfl⟩

theorem pass1_ok_val : ∀ (cells : List (List Char)) (se : Bool) (prev : Option ℕ) (i : ℕ)
    (l : List ℕ), syncPass1 true cells se prev i = .ok l → l = parsedCells cells := by
  intro cells
  induction cells with
  | nil =>
      intro se prev i l h
      simp [syncPass1] at h
      simp [← h, parsedCells, nonBlankCells, trimmedCells]
  | cons cell rest ih =>
      intro se prev i l h
      by_cases hr : jsTrim cell = []
      · rw [show syncPass1 true (cell :: rest) se prev i = syncPass1 true rest true prev (i + 1)
            from by simp [syncPass1, hr]] at h
        rw [ih true prev (i + 1) l h, parsedCells_cons_blank cell rest hr]
      · cases hp : parseFlexibleMmSsToSeconds (jsTrim cell) with
        | none =>
            rw [show syncPass1 true (cell :: rest) se prev i =
                .error ⟨i + 1, .badCell (jsTrim cell)⟩ from by simp [syncPass1, hr, hp]] at h
            cases h
        | some v =>
            rw [parsedCells_cons_some cell rest v hr hp]
            cases prev with
            | none =>
                rw [show syncPass1 true (cell :: rest) se none i =
                    Except.map (fun l => v :: l) (syncPass1 true rest se (some v) (i + 1))
                    from by simp [syncPass1, hr, hp]] at h
                cases hrec : syncPass1 true rest se (some v) (i + 1) with
                | error e => rw [hrec] at h; exact absurd h (by simp [Except.map])
                | ok l' =>
                    rw [hrec] at h
                    have : v :: l' = l := by
                      simpa [Except.map] using h
                    rw [← this, ih se (some v) (i + 1) l' hrec]
            | some p =>
                by_cases hvp : v ≤ p
                · rw [show syncPass1 true (cell :: rest) se (some p) i =
                      .error ⟨i + 1, .notIncreasing⟩ from by simp [syncPass1, hr, hp, hvp]] at h
                  cases h
                · rw [show syncPass1 true (cell :: rest) se (some p) i =
                      Except.map (fun l => v :: l) (syncPass1 true rest se (some v) (i + 1))
                      from by simp [syncPass1, hr, hp, hvp]] at h
                  cases hrec : syncPass1 true rest se (some v) (i + 1) with
                  | error e => rw [hrec] at h; exact absurd h (by simp [Except.map])
                  | ok l' =>
                      rw [hrec] at h
                      have : v :: l' = l := by
                        simpa [Except.map] using h
                      rw [← this, ih se (some v) (i + 1) l' hrec]

theorem syncManualCells_ok_iff (cells : List (List Char)) :
    (∃ l, syncManualCells cells = .ok l) ↔ ValidCells cells := by
  unfold syncManualCells
  constructor
  · rintro ⟨l, hl⟩
    cases h1 : syncPass1 true cells false none 0 with
    | error e => rw [h1] at hl; cases hl
    | ok parsed =>
        rw [h1] at hl
        cases h2 : syncPass2 cells false 0 with
        | some e => rw [h2] at hl; cases hl
        | none =>
            have hv1 := (pass1_ok_iff cells false none 0).mp ⟨parsed, h1⟩
            exact ⟨(pass2_none_iff cells 0).mp h2, hv1.1,
              (chainGt_none_iff (parsedCells cells)).mp hv1.2⟩
  · rintro ⟨hgap, hparse, hchain⟩
    obtain ⟨l, hl⟩ := (pass1_ok_iff cells false none 0).mpr
      ⟨hparse, (chainGt_none_iff (parsedCells cells)).mpr hchain⟩
    refine ⟨l, ?_⟩
    rw [hl, show syncPass2 cells false 0 = none from (pass2_none_iff cells 0).mpr hgap]

theorem syncManualCells_ok_val (cells : List (List Char)) (l : List ℕ)
    (h : syncManualCells cells = .ok l) : l = parsedCells cells := by
  unfold syncManualCells at h
  cases h1 : syncPass1 true cells false none 0 with
  | error e => rw [h1] at h; cases h
  | ok parsed =>
      rw [h1] at h
      cases h2 : syncPass2 cells false 0 with
      | some e => rw [h2] at h; cases h
      | none =>
          rw [h2] at h
          injection h with h3
          rw [← h3]
          exact pass1_ok_val cells false none 0 parsed h1

/-! ## Claim C8: atomic manual-table submission -/

/-- Claim C8: manual submission either accepts the whole table — exactly
when every non-blank cell parses, blanks are only a trailing run, and the
parsed values strictly increase — and then the parsed values of the
non-blank cells wholly replace `lapTimes`, or it rejects with a cell-indexed
error message and `lapTimes` exactly as before.  In particular the cells
"0:30", "", "1:45" are rejected with the gap error naming lap 3 and the
ledger is untouched. -/
theorem claim_C8_manual_submit :
    (∀ cells : List (List Char), (∃ l, syncManualCells cells = .ok l) ↔ ValidCells cells) ∧
    (∀ (cells : List (List Char)) (l : List ℕ),
      syncManualCells cells = .ok l → l = parsedCells cells) ∧
    (∀ s : AppState, (syncLapTimesFromManualTable s).2 = true →
      (syncLapTimesFromManualTable s).1.lapTimes =
        (parsedCells s.manualCells).map (fun n => (n : ℚ))) ∧
    (∀ s : AppState, (syncLapTimesFromManualTable s).2 = false →
      (syncLapTimesFromManualTable s).1.lapTimes = s.lapTimes ∧
      ∃ e : ManualErr, syncManualCells s.manualCells = .error e ∧
        (syncLapTimesFromManualTable s).1.lapError = renderManualErr e) ∧
    (syncManualCells [jsStr "0:30", jsStr "", jsStr "1:45"] = .error ⟨3, .gap⟩) ∧
    (∀ s : AppState, s.manualCells = [jsStr "0:30", jsStr "", jsStr "1:45"] →
      (syncLapTimesFromManualTable s).2 = false ∧
      (syncLapTimesFromManualTable s).1.lapTimes = s.lapTimes ∧
      (syncLapTimesFromManualTable s).1.lapError =
        "Manual entry error: Lap 3 has a value but an earlier lap is blank.") := by
  have hgapEx : syncManualCells [jsStr "0:30", jsStr "", jsStr "1:45"] = .error ⟨3, .gap⟩ := by
    decide
  have hok : ∀ s : AppState, (syncLapTimesFromManualTable s).2 = true →
      (syncLapTimesFromManualTable s).1.lapTimes =
        (parsedCells s.manualCells).map (fun n => (n : ℚ)) := by
    intro s h
    unfold syncLapTimesFromManualTable at h ⊢
    by_cases hc : s.manualCells = []
    · rw [if_pos hc]
      simp [parsedCells, nonBlankCells, trimmedCells, hc]
    · rw [if_neg hc] at h ⊢
      cases hm : syncManualCells s.manualCells with
      | error e =>
          rw [hm] at h
          simp at h
      | ok parsed =>
          rw [syncManualCells_ok_val s.manualCells parsed hm]
  have herr : ∀ s : AppState, (syncLapTimesFromManualTable s).2 = false →
      (syncLapTimesFromManualTable s).1.lapTimes = s.lapTimes ∧
      ∃ e : ManualErr, syncManualCells s.manualCells = .error e ∧
        (syncLapTimesFromManualTable s).1.lapError = renderManualErr e := by
    intro s h
    unfold syncLapTimesFromManualTable at h ⊢
    by_cases hc : s.manualCells = []
    · rw [if_pos hc] at h
      simp at h
    · rw [if_neg hc] at h ⊢
      cases hm : syncManualCells s.manualCells with
      | error e => exact ⟨rfl, e, rfl, rfl⟩
      | ok parsed =>
          rw [hm] at h
          simp at h
  refine ⟨syncManualCells_ok_iff, syncManualCells_ok_val, hok, herr, hgapEx, ?_⟩
  intro s hcells
  have h2 : (syncLapTimesFromManualTable s).2 = false := by
    unfold syncLapTimesFromManualTable
    rw [if_neg (by rw [hcells]; simp), hcells, hgapEx]
  obtain ⟨hlt, e, he, hmsg⟩ := herr s h2
  have heq : e = ⟨3, .gap⟩ := by
    rw [hcells, hgapEx] at he
    injection he with h3
    exact h3.symm
  refine ⟨h2, hlt, ?_⟩
  rw [hmsg, heq]
  decide

theorem claim_C8_witness :
    ({ initState with
        manualCells := [jsStr "0:30", jsStr "", jsStr "1:45"] } : AppState).manualCells =
      [jsStr "0:30", jsStr "", jsStr "1:45"] ∧
    ((syncLapTimesFromManualTable
        { initState with manualCells := [jsStr "0:30", jsStr "", jsStr "1:45"] }).2 = false ∧
      (syncLapTimesFromManualTable
        { initState with manualCells := [jsStr "0:30", jsStr "", jsStr "1:45"] }).1.lapTimes =
        ({ initState with
            manualCells := [jsStr "0:30", jsStr "", jsStr "1:45"] } : AppState).lapTimes ∧
      (syncLapTimesFromManualTable
        { initState with manualCells := [jsStr "0:30", jsStr "", jsStr "1:45"] }).1.lapError =
        "Manual entry error: Lap 3 has a value but an earlier lap is blank.") :=
  ⟨rfl, claim_C8_manual_submit.2.2.2.2.2 _ rfl⟩
